import Mathlib

/-!
Verification development for the eden projection-layer core.

The definitions below are shallow embeddings of the C++ sources:
  * `src/eden/fs/store/hg/HgProxyHash.cpp`  (namespace `Eden.HgProxyHash`)
  * `src/eden/fs/inodes/FileInode.cpp`      (namespace `Eden.FileInode`)
  * `src/eden/fs/takeover/TakeoverData.cpp` (namespace `Eden.Takeover`)

Bytes are modelled as lists of naturals; machine-integer fields that matter
(the big-endian `uint32_t` length and version prefixes) are encoded and
decoded explicitly, byte by byte.
-/

namespace Eden

/-- A byte string, one natural number per byte. -/
abbrev Bytes := List Nat

/-- `folly::Endian::big(uint32_t)` written out as four bytes, most significant
first, as `HgProxyHash::serialize` and the takeover appenders produce it. -/
def beU32 (n : Nat) : Bytes :=
  [n / 2 ^ 24 % 256, n / 2 ^ 16 % 256, n / 2 ^ 8 % 256, n % 256]

/-- Reassemble a big-endian `uint32_t` from its four bytes, as
`folly::io::Cursor::readBE<uint32_t>` and `HgProxyHash::validate` do. -/
def readBeU32 (a b c d : Nat) : Nat :=
  ((a * 256 + b) * 256 + c) * 256 + d

/-- `readBeU32` on a four-byte list; other shapes read as zero. -/
def readBeU32L (l : Bytes) : Nat :=
  match l with
  | [a, b, c, d] => readBeU32 a b c d
  | _ => 0

theorem readBeU32_beU32 (n : Nat) (h : n < 2 ^ 32) :
    readBeU32 (n / 2 ^ 24 % 256) (n / 2 ^ 16 % 256) (n / 2 ^ 8 % 256) (n % 256) = n := by
  unfold readBeU32
  omega

theorem beU32_eq (n : Nat) :
    beU32 n = [n / 2 ^ 24 % 256, n / 2 ^ 16 % 256, n / 2 ^ 8 % 256, n % 256] := rfl

namespace HgProxyHash

/-- `Hash20::RAW_SIZE`: revision hashes are 20 bytes. -/
def hash20RawSize : Nat := 20

/-- Modelled from the spec: `TYPE_HG_ID_NO_PATH`, the embedded tag byte, is
declared in `HgProxyHash.h` which is not part of the sources; spec section 3.1
fixes it to `0x01`. -/
def TYPE_HG_ID_NO_PATH : Nat := 1

/-- `HgProxyHash::serialize`: the legacy tuple
`revHash || big_endian_u32(len(path)) || path`. -/
def serialize (path hgRevHash : Bytes) : Bytes :=
  hgRevHash ++ beU32 path.length ++ path

/-- The stored value of an `HgProxyHash` (`value_` in the C++ class). -/
structure ProxyHash where
  value : Bytes
  deriving DecidableEq, Repr

/-- The `HgProxyHash(RelativePathPiece, Hash20)` constructor:
`value_` is the serialized legacy tuple. -/
def ofPathHash (path hgRevHash : Bytes) : ProxyHash :=
  ⟨serialize path hgRevHash⟩

/-- `kZeroHash`, the all-zero 20-byte hash returned for an empty value. -/
def kZeroHash : Bytes := List.replicate hash20RawSize 0

/-- `HgProxyHash::path()`: empty for an empty value, otherwise everything past
the 20 hash bytes and the 4-byte length prefix. -/
def ProxyHash.path (p : ProxyHash) : Bytes :=
  if p.value = [] then [] else p.value.drop (hash20RawSize + 4)

/-- `HgProxyHash::byteHash()`: the first 20 bytes of the value, or the zero
hash for an empty value. -/
def ProxyHash.byteHash (p : ProxyHash) : Bytes :=
  if p.value = [] then kZeroHash else p.value.take hash20RawSize

/-- `HgProxyHash::revHash()` wraps `byteHash` in a `Hash20`. -/
def ProxyHash.revHash (p : ProxyHash) : Bytes := p.byteHash

/-- The failures `tryParseEmbeddedProxyHash`, `load` and `validate` can raise. -/
inductive LoadError
  /-- `std::invalid_argument("Unknown proxy hash type ...")` from
  `tryParseEmbeddedProxyHash`. -/
  | unknownProxyHashType
  /-- The key-value store had no entry: `StoreResult::extractValue` throws
  after the "received unknown mercurial proxy hash" log. -/
  | unknownProxyHash
  /-- `validate`: value shorter than hash plus length prefix. -/
  | tooShort
  /-- `validate`: declared path length disagrees with the remaining bytes. -/
  | malformed
  deriving DecidableEq, Repr

/-- `HgProxyHash::tryParseEmbeddedProxyHash`: ids longer than 20 bytes must be
exactly 21 bytes with the embedded tag, anything else of that length range
throws; ids of at most 20 bytes are not embedded. -/
def tryParseEmbeddedProxyHash (edenObjectId : Bytes) :
    Except LoadError (Option ProxyHash) :=
  if edenObjectId.length > hash20RawSize then
    if edenObjectId.length = hash20RawSize + 1 ∧
        edenObjectId.headI = TYPE_HG_ID_NO_PATH then
      .ok (some (ofPathHash [] (edenObjectId.drop 1)))
    else
      .error .unknownProxyHashType
  else
    .ok none

/-- `HgProxyHash::validate`: the value must hold the 20-byte hash and the
4-byte big-endian path length, and the declared length must equal the number
of remaining bytes. -/
def validate (value : Bytes) : Except LoadError Unit :=
  if value.length < hash20RawSize + 4 then .error .tooShort
  else
    match value.drop hash20RawSize with
    | b0 :: b1 :: b2 :: b3 :: rest =>
      if rest.length = readBeU32 b0 b1 b2 b3 then .ok () else .error .malformed
    | _ => .error .tooShort

/-- Modelled from the spec: the `HgProxyHash(ObjectId, std::string)`
constructor used by `load` is declared in `HgProxyHash.h`, which is not part
of the sources; per spec section 4.1 the looked-up bytes are validated
(`lookup(objectId)` and validate), exactly as the batch-path constructor in
the sources does. -/
def ofStored (storedBytes : Bytes) : Except LoadError ProxyHash := do
  validate storedBytes
  .ok ⟨storedBytes⟩

/-- `HgProxyHash::load`: first try the embedded shape, otherwise consult the
key-value store; a missing entry fails with `unknownProxyHash`. -/
def load (edenObjectId : Bytes) (lookup : Bytes → Option Bytes) :
    Except LoadError ProxyHash := do
  match ← tryParseEmbeddedProxyHash edenObjectId with
  | some p => .ok p
  | none =>
    match lookup edenObjectId with
    | none => .error .unknownProxyHash
    | some bytes => ofStored bytes

/-- `HgProxyHash::makeEmbeddedProxyHash`: the tag byte followed by the 20
hash bytes. -/
def makeEmbeddedProxyHash (hgRevHash : Bytes) : Bytes :=
  TYPE_HG_ID_NO_PATH :: hgRevHash

/-- `HgProxyHash::prepareToStoreLegacy`: serialize the tuple and hash it.
The SHA-1 function is passed in explicitly; the development only ever uses
that its digests are 20 bytes long. -/
def prepareToStoreLegacy (sha1 : Bytes → Bytes) (path hgRevHash : Bytes) :
    Bytes × Bytes :=
  let buf := serialize path hgRevHash
  (sha1 buf, buf)

/-- `HgProxyHash::store`: without a write batch the embedded id is returned
and nothing is written; with one, the legacy pair is computed and the
key/value put is recorded (returned as the second component). -/
def store (sha1 : Bytes → Bytes) (path hgRevHash : Bytes)
    (writeBatch : Bool) : Bytes × Option (Bytes × Bytes) :=
  if !writeBatch then (makeEmbeddedProxyHash hgRevHash, none)
  else
    let computedPair := prepareToStoreLegacy sha1 path hgRevHash
    (computedPair.1, some computedPair)

theorem hash20RawSize_eq : hash20RawSize = 20 := rfl

theorem length_serialize (path h : Bytes) :
    (serialize path h).length = h.length + 4 + path.length := by
  simp only [serialize, List.length_append, beU32, List.length_cons,
    List.length_nil]

theorem serialize_ne_nil (path h : Bytes) : serialize path h ≠ [] := by
  intro hcon
  have hlen := length_serialize path h
  rw [hcon] at hlen
  simp at hlen
  omega

theorem drop20_serialize (path h : Bytes) (hh : h.length = 20) :
    (serialize path h).drop hash20RawSize =
      path.length / 2 ^ 24 % 256 :: path.length / 2 ^ 16 % 256 ::
        path.length / 2 ^ 8 % 256 :: path.length % 256 :: path := by
  have hs : serialize path h = h ++ (beU32 path.length ++ path) := by
    simp [serialize]
  rw [hash20RawSize_eq, hs, ← hh, List.drop_left]
  simp [beU32]

theorem drop24_serialize (path h : Bytes) (hh : h.length = 20) :
    (serialize path h).drop (hash20RawSize + 4) = path := by
  have hs : serialize path h = (h ++ beU32 path.length) ++ path := by
    simp [serialize]
  have hlen : (h ++ beU32 path.length).length = hash20RawSize + 4 := by
    simp only [List.length_append, beU32, List.length_cons, List.length_nil,
      hash20RawSize_eq]
    omega
  rw [hs, ← hlen, List.drop_left]

theorem take20_serialize (path h : Bytes) (hh : h.length = 20) :
    (serialize path h).take hash20RawSize = h := by
  have hs : serialize path h = h ++ (beU32 path.length ++ path) := by
    simp [serialize]
  rw [hash20RawSize_eq, hs, ← hh, List.take_left]

theorem validate_serialize (path h : Bytes) (hh : h.length = 20)
    (hplen : path.length < 2 ^ 32) :
    validate (serialize path h) = .ok () := by
  have hlen := length_serialize path h
  unfold validate
  rw [drop20_serialize path h hh, if_neg (by rw [hash20RawSize_eq]; omega)]
  show (if path.length =
      readBeU32 (path.length / 2 ^ 24 % 256) (path.length / 2 ^ 16 % 256)
        (path.length / 2 ^ 8 % 256) (path.length % 256)
    then (Except.ok () : Except LoadError Unit) else .error .malformed) = .ok ()
  rw [readBeU32_beU32 path.length hplen, if_pos rfl]

theorem load_notEmbedded (oid : Bytes) (holen : ¬oid.length > hash20RawSize)
    (lookup : Bytes → Option Bytes) :
    load oid lookup =
      match lookup oid with
      | none => .error .unknownProxyHash
      | some bytes => ofStored bytes := by
  unfold load tryParseEmbeddedProxyHash
  rw [if_neg holen]
  rfl

theorem load_embedded (oid : Bytes) (h21 : oid.length = hash20RawSize + 1)
    (htag : oid.headI = TYPE_HG_ID_NO_PATH) (lookup : Bytes → Option Bytes) :
    load oid lookup = .ok (ofPathHash [] (oid.drop 1)) := by
  unfold load tryParseEmbeddedProxyHash
  rw [if_pos (by omega), if_pos ⟨h21, htag⟩]
  rfl

theorem path_ofPathHash (path h : Bytes) (hh : h.length = 20) :
    (ofPathHash path h).path = path := by
  unfold ofPathHash ProxyHash.path
  rw [if_neg (serialize_ne_nil path h)]
  exact drop24_serialize path h hh

theorem revHash_ofPathHash (path h : Bytes) (hh : h.length = 20) :
    (ofPathHash path h).revHash = h := by
  unfold ofPathHash ProxyHash.revHash ProxyHash.byteHash
  rw [if_neg (serialize_ne_nil path h)]
  exact take20_serialize path h hh

/-- C1: encoding a non-empty relative path `p` and a 20-byte revision hash `h`
in the legacy form (stored bytes `h || big_endian_u32(len p) || p`, object id
the SHA-1 of those bytes) and decoding the object id against a lookup that
returns the stored bytes yields a proxy hash whose `path` is `p` and whose
`revHash` is `h`. The SHA-1 function is abstract; only the fact that its
digests are 20 bytes long is used. -/
theorem c1_encode_decode_roundtrip (sha1 : Bytes → Bytes) (p h : Bytes)
    (lookup : Bytes → Option Bytes)
    (_hp : p ≠ []) (hh : h.length = 20) (hplen : p.length < 2 ^ 32)
    (hsha : (prepareToStoreLegacy sha1 p h).1.length = 20)
    (hlook : lookup (prepareToStoreLegacy sha1 p h).1 =
      some (prepareToStoreLegacy sha1 p h).2) :
    ∃ ph, load (prepareToStoreLegacy sha1 p h).1 lookup = .ok ph ∧
      ph.path = p ∧ ph.revHash = h := by
  refine ⟨ofPathHash p h, ?_, path_ofPathHash p h hh, revHash_ofPathHash p h hh⟩
  rw [load_notEmbedded _ (by rw [hash20RawSize_eq]; omega) lookup, hlook]
  show ofStored (serialize p h) = _
  unfold ofStored
  rw [validate_serialize p h hh hplen]
  rfl

/-- C1 witness: the round trip evaluated at path "a/b" and a concrete hash. -/
theorem c1_encode_decode_roundtrip_witness :
    ∃ ph,
      load
        (prepareToStoreLegacy (fun _ => List.replicate 20 9) [97, 47, 98]
          (List.replicate 20 2)).1
        (fun o => if o = List.replicate 20 9 then
          some (serialize [97, 47, 98] (List.replicate 20 2)) else none) =
        .ok ph ∧
      ph.path = [97, 47, 98] ∧ ph.revHash = List.replicate 20 2 :=
  c1_encode_decode_roundtrip (fun _ => List.replicate 20 9) [97, 47, 98]
    (List.replicate 20 2)
    (fun o => if o = List.replicate 20 9 then
      some (serialize [97, 47, 98] (List.replicate 20 2)) else none)
    (by decide) (by decide) (by decide) (by decide) (by decide)

/-- A 21-byte object id whose first byte is not the embedded tag. -/
def c3BadOid : Bytes := List.replicate 21 0

/-- Well-formed legacy stored bytes for the one-byte path "a". -/
def c3GoodStored : Bytes := serialize [97] (List.replicate 20 5)

/-- C3 counterexample: the claim says every object id not of the embedded
shape is resolved through the lookup and validated, but a 21-byte id with a
wrong tag byte is rejected as an unknown proxy hash type without the lookup
ever being consulted, even though the lookup holds bytes that validate. -/
theorem c3_counterexample_rejects_without_lookup :
    validate c3GoodStored = .ok () ∧
    load c3BadOid (fun _ => some c3GoodStored) =
      .error .unknownProxyHashType := by
  constructor
  · rfl
  · rfl

/-- C3 (amended): decode first attempts the embedded shape (length 21, first
byte `0x01`); an object id longer than 20 bytes that is not of that shape is
rejected with the unknown-proxy-hash-type error without consulting the
lookup; object ids of at most 20 bytes consult the lookup, a missing entry
fails with the unknown-proxy-hash error, and returned bytes are validated:
the remaining bytes after the length prefix must equal the declared length,
else malformed (a value too short to hold the prefix is also rejected). -/
theorem c3_decode_shape (oid : Bytes) (lookup : Bytes → Option Bytes) :
    (oid.length = 21 → oid.headI = TYPE_HG_ID_NO_PATH →
      load oid lookup = .ok (ofPathHash [] (oid.drop 1)) ∧
      (∀ lookup', load oid lookup = load oid lookup')) ∧
    (oid.length > 20 → ¬(oid.length = 21 ∧ oid.headI = TYPE_HG_ID_NO_PATH) →
      ∀ lookup', load oid lookup' = .error .unknownProxyHashType) ∧
    (oid.length ≤ 20 →
      (lookup oid = none → load oid lookup = .error .unknownProxyHash) ∧
      (∀ b, lookup oid = some b →
        (b.length < 24 → load oid lookup = .error .tooShort) ∧
        (∀ h20 lb rest, b = h20 ++ lb ++ rest → h20.length = 20 →
          lb.length = 4 →
          (rest.length = readBeU32L lb → load oid lookup = .ok ⟨b⟩) ∧
          (rest.length ≠ readBeU32L lb →
            load oid lookup = .error .malformed)))) := by
  refine ⟨?_, ?_, ?_⟩
  · intro h21 htag
    refine ⟨load_embedded oid (by rw [hash20RawSize_eq]; omega) htag lookup, ?_⟩
    intro lookup'
    rw [load_embedded oid (by rw [hash20RawSize_eq]; omega) htag lookup,
      load_embedded oid (by rw [hash20RawSize_eq]; omega) htag lookup']
  · intro hgt hnot lookup'
    unfold load tryParseEmbeddedProxyHash
    rw [if_pos (by rw [hash20RawSize_eq]; omega),
      if_neg (by rw [hash20RawSize_eq]; exact hnot)]
    rfl
  · intro hle
    have hne : ¬oid.length > hash20RawSize := by rw [hash20RawSize_eq]; omega
    refine ⟨?_, ?_⟩
    · intro hnone
      rw [load_notEmbedded oid hne lookup, hnone]
    · intro b hsome
      rw [load_notEmbedded oid hne lookup, hsome]
      refine ⟨?_, ?_⟩
      · intro hshort
        have hval : validate b = .error .tooShort := by
          unfold validate
          rw [if_pos (by rw [hash20RawSize_eq]; omega)]
        show ofStored b = _
        unfold ofStored
        rw [hval]
        rfl
      · intro h20 lb rest hb h20len hlblen
        obtain ⟨a0, a1, a2, a3, hlb⟩ :
            ∃ a0 a1 a2 a3, lb = [a0, a1, a2, a3] := by
          match lb, hlblen with
          | [a0, a1, a2, a3], _ => exact ⟨a0, a1, a2, a3, rfl⟩
        subst hlb
        have hblen : b.length = 24 + rest.length := by
          rw [hb]
          simp only [List.length_append, List.length_cons, List.length_nil]
          omega
        have hdrop : b.drop hash20RawSize = a0 :: a1 :: a2 :: a3 :: rest := by
          rw [hb, List.append_assoc, hash20RawSize_eq, ← h20len,
            List.drop_left]
          rfl
        refine ⟨?_, ?_⟩
        · intro heq
          have hval : validate b = .ok () := by
            unfold validate
            rw [hdrop, if_neg (by rw [hash20RawSize_eq]; omega)]
            show (if rest.length = readBeU32 a0 a1 a2 a3
              then (Except.ok () : Except LoadError Unit)
              else .error .malformed) = _
            rw [if_pos (show rest.length = readBeU32 a0 a1 a2 a3 from heq)]
          show ofStored b = _
          unfold ofStored
          rw [hval]
          rfl
        · intro hneq
          have hval : validate b = .error .malformed := by
            unfold validate
            rw [hdrop, if_neg (by rw [hash20RawSize_eq]; omega)]
            show (if rest.length = readBeU32 a0 a1 a2 a3
              then (Except.ok () : Except LoadError Unit)
              else .error .malformed) = _
            rw [if_neg (show ¬rest.length = readBeU32 a0 a1 a2 a3 from hneq)]
          show ofStored b = _
          unfold ofStored
          rw [hval]
          rfl

/-- C3 witness: an id of at most 20 bytes with a missing lookup entry fails
with the unknown-proxy-hash error. -/
theorem c3_decode_shape_witness :
    load [1, 2] (fun _ => none) = .error .unknownProxyHash :=
  ((c3_decode_shape [1, 2] (fun _ => none)).2.2 (by decide)).1 rfl

/-- C4: for the empty path, `store` without a write batch produces the
embedded id: 21 bytes, first byte `0x01`, then the 20 hash bytes; decoding it
reproduces the empty path and the hash, and the result never depends on the
lookup. -/
theorem c4_embedded_empty_path (sha1 : Bytes → Bytes) (h : Bytes)
    (hh : h.length = 20) :
    (store sha1 [] h false).1 = makeEmbeddedProxyHash h ∧
    (store sha1 [] h false).1.length = 21 ∧
    (store sha1 [] h false).1.headI = TYPE_HG_ID_NO_PATH ∧
    (store sha1 [] h false).1.drop 1 = h ∧
    (∀ lookup lookup',
      load (store sha1 [] h false).1 lookup =
        load (store sha1 [] h false).1 lookup') ∧
    (∀ lookup, ∃ ph, load (store sha1 [] h false).1 lookup = .ok ph ∧
      ph.path = [] ∧ ph.revHash = h) := by
  have hid : (store sha1 [] h false).1 = TYPE_HG_ID_NO_PATH :: h := rfl
  have hlen : (store sha1 [] h false).1.length = hash20RawSize + 1 := by
    rw [hid]
    simp only [List.length_cons, hh, hash20RawSize_eq]
  have htag : (store sha1 [] h false).1.headI = TYPE_HG_ID_NO_PATH := by
    rw [hid]; rfl
  have hdrop : (store sha1 [] h false).1.drop 1 = h := by rw [hid]; rfl
  refine ⟨rfl, by rw [hlen, hash20RawSize_eq], htag, hdrop, ?_, ?_⟩
  · intro lookup lookup'
    rw [load_embedded _ hlen htag lookup, load_embedded _ hlen htag lookup']
  · intro lookup
    refine ⟨ofPathHash [] h, ?_, ?_, revHash_ofPathHash [] h hh⟩
    · rw [load_embedded _ hlen htag lookup, hdrop]
    · exact path_ofPathHash [] h hh

/-- C4 witness: the embedded encoding evaluated at a concrete hash. -/
theorem c4_embedded_empty_path_witness :
    (store (fun _ => []) [] (List.replicate 20 3) false).1.length = 21 :=
  (c4_embedded_empty_path (fun _ => []) (List.replicate 20 3) (by decide)).2.1

/-- C10: `store` with no write batch ignores the path entirely: the returned
object id is the embedded id built from the hash alone and nothing is written;
decoding that id therefore yields the empty path, not the path passed in. -/
theorem c10_store_without_batch_discards_path (sha1 : Bytes → Bytes)
    (p h : Bytes) (hh : h.length = 20) :
    store sha1 p h false = (makeEmbeddedProxyHash h, none) ∧
    (∀ lookup, ∃ ph, load (store sha1 p h false).1 lookup = .ok ph ∧
      ph.path = [] ∧ (p ≠ [] → ph.path ≠ p) ∧ ph.revHash = h) := by
  have hid : (store sha1 p h false).1 = TYPE_HG_ID_NO_PATH :: h := rfl
  have hlen : (store sha1 p h false).1.length = hash20RawSize + 1 := by
    rw [hid]
    simp only [List.length_cons, hh, hash20RawSize_eq]
  have htag : (store sha1 p h false).1.headI = TYPE_HG_ID_NO_PATH := by
    rw [hid]; rfl
  refine ⟨rfl, ?_⟩
  intro lookup
  refine ⟨ofPathHash [] h, ?_, path_ofPathHash [] h hh, ?_,
    revHash_ofPathHash [] h hh⟩
  · rw [load_embedded _ hlen htag lookup, hid]
    rfl
  · intro hpne hcon
    rw [path_ofPathHash [] h hh] at hcon
    exact hpne hcon.symm

/-- C10 witness: a non-empty path is discarded by a batchless store. -/
theorem c10_store_without_batch_discards_path_witness :
    store (fun _ => []) [97] (List.replicate 20 4) false =
      (makeEmbeddedProxyHash (List.replicate 20 4), none) :=
  (c10_store_without_batch_discards_path (fun _ => []) [97]
    (List.replicate 20 4) (by decide)).1

end HgProxyHash

namespace FileInode

/-- `FileInodeState::Tag`. -/
inductive Tag
  | blobNotLoading
  | blobLoading
  | materializedInOverlay
  deriving DecidableEq, Repr

/-- `FileInodeState::NonMaterializedState`: the blob hash plus the cached
size; `none` models `kUnknownSize`. -/
structure NonMaterializedState where
  hash : Bytes
  size : Option Nat
  deriving DecidableEq, Repr

/-- The mutable per-inode record `FileInodeState`. The loading promise and
the interest handle are modelled by their presence. `readByteRanges` is the
list of half-open intervals added to the folly `CoverageSet`. -/
structure State where
  tag : Tag
  nonMaterializedState : Option NonMaterializedState
  blobLoadingPromise : Bool
  interestHandle : Bool
  readByteRanges : List (Nat × Nat)
  deriving DecidableEq, Repr

/-- The `FileInodeState(const std::optional<ObjectId>&)` constructor: with a
hash the inode starts in `BLOB_NOT_LOADING`, without one it is a freshly
created file and starts in `MATERIALIZED_IN_OVERLAY`. -/
def State.mk0 (h : Option Bytes) : State :=
  { tag := if h.isSome then .blobNotLoading else .materializedInOverlay
    nonMaterializedState := h.map fun x => ⟨x, none⟩
    blobLoadingPromise := false
    interestHandle := false
    readByteRanges := [] }

/-- `FileInode::LockedState::setMaterialized`: drop the non-materialized
record, flip the tag, reset the interest handle and clear the byte ranges.
(The loading promise is untouched here; `truncateAndRun` extracts it
separately.) -/
def setMaterialized (s : State) : State :=
  { s with nonMaterializedState := none
           tag := .materializedInOverlay
           interestHandle := false
           readByteRanges := [] }

/-- State effect of `LockedState::getCachedBlob`: if the previous interest
handle still yields the blob nothing changes; on a cache hit the fresh
interest handle is stored; on a miss the handle is reset and the coverage
set cleared. -/
def getCachedBlobState (s : State) (prevHandleValid cacheHit : Bool) :
    State :=
  if prevHandleValid then s
  else if cacheHit then { s with interestHandle := true }
  else { s with interestHandle := false, readByteRanges := [] }

/-- State effect of `FileInode::startLoadingData`: install a fresh loading
promise and flip the tag to `BLOB_LOADING`. -/
def startLoadingDataState (s : State) : State :=
  { s with blobLoadingPromise := true, tag := .blobLoading }

/-- State effect of the blob-load completion continuation in
`startLoadingData`: in `BLOB_LOADING` the promise is extracted, the interest
handle stored on success, and the tag flipped back to `BLOB_NOT_LOADING`;
in `MATERIALIZED_IN_OVERLAY` the load raced with a truncation and nothing is
done. -/
def loadCompleteState (s : State) (success : Bool) : State :=
  match s.tag with
  | .blobLoading =>
    { s with blobLoadingPromise := false
             tag := .blobNotLoading
             interestHandle := if success then true else s.interestHandle }
  | _ => s

/-- State effect of the non-materialized branch of `truncateAndRun`:
`materializeAndTruncate` runs `setMaterialized`, and the loading promise is
moved out of the state (fulfilled later, with the lock released). -/
def truncateAndRunState (s : State) : State :=
  { setMaterialized s with blobLoadingPromise := false }

/-- Whether the union of the recorded intervals covers the point `x`
(`folly::CoverageSet` semantics). -/
def coversPoint (rs : List (Nat × Nat)) (x : Nat) : Bool :=
  rs.any fun r => decide (r.1 ≤ x) && decide (x < r.2)

/-- `CoverageSet::covers(a, b)`: every point of `[a, b)` is covered. -/
def covers (rs : List (Nat × Nat)) (a b : Nat) : Bool :=
  (List.range b).all fun x => decide (x < a) || coversPoint rs x

/-- State effect of the `BLOB_NOT_LOADING` branch of `FileInode::read`:
record `[off, off+size)` and, once the whole blob has been served, release
the interest handle and clear the coverage set. -/
def readStateUpdate (s : State) (off size blobSize : Nat) : State :=
  let s1 := { s with readByteRanges := (off, off + size) :: s.readByteRanges }
  if covers s1.readByteRanges 0 blobSize then
    { s1 with interestHandle := false, readByteRanges := [] }
  else s1

/-- State effect of the size-fetch continuation of `FileInode::stat`: memoize
the fetched size, but only if the inode is still non-materialized. -/
def statCompleteState (s : State) (size : Nat) : State :=
  if s.tag = .materializedInOverlay then s
  else { s with nonMaterializedState :=
          s.nonMaterializedState.map fun nm => { nm with size := some size } }

/-- One state transition of the inode, as performed by the operations of
`FileInode.cpp` while holding the state lock. Preconditions are the
`XCHECK`/`XDCHECK` guards of the corresponding functions. -/
inductive Step : State → State → Prop
  /-- `LockedState::getCachedBlob` (read/write paths); asserts the inode is
  not materialized. -/
  | getCached (s : State) (prevHandleValid cacheHit : Bool)
      (h : s.tag ≠ .materializedInOverlay) :
      Step s (getCachedBlobState s prevHandleValid cacheHit)
  /-- `startLoadingData`; called with the state in `BLOB_NOT_LOADING`. -/
  | startLoading (s : State) (h : s.tag = .blobNotLoading) :
      Step s (startLoadingDataState s)
  /-- Blob-load completion; `BLOB_NOT_LOADING` here is `EDEN_BUG()`. -/
  | loadComplete (s : State) (success : Bool)
      (h : s.tag ≠ .blobNotLoading) :
      Step s (loadCompleteState s success)
  /-- `materializeNow` (write/setattr/fallocate paths); asserts
  `BLOB_NOT_LOADING`. -/
  | materializeNow (s : State) (h : s.tag = .blobNotLoading) :
      Step s (setMaterialized s)
  /-- The non-materialized branch of `truncateAndRun`
  (`materializeAndTruncate` plus promise extraction). -/
  | truncateAndRun (s : State) (h : s.tag ≠ .materializedInOverlay) :
      Step s (truncateAndRunState s)
  /-- `truncateInOverlay`: already materialized, the state is unchanged. -/
  | truncateInOverlay (s : State) (h : s.tag = .materializedInOverlay) :
      Step s s
  /-- The `BLOB_NOT_LOADING` branch of `read`. -/
  | read (s : State) (off size blobSize : Nat)
      (h : s.tag = .blobNotLoading) :
      Step s (readStateUpdate s off size blobSize)
  /-- The size-fetch continuation of `stat`. -/
  | statComplete (s : State) (size : Nat) :
      Step s (statCompleteState s size)

/-- States reachable from a freshly constructed inode through the state-lock
protected operations. -/
inductive Reachable : State → Prop
  | init (h : Option Bytes) : Reachable (State.mk0 h)
  | step {s t : State} : Reachable s → Step s t → Reachable t

/-- The inductive invariant: `BLOB_NOT_LOADING` has no loading promise, and
`MATERIALIZED_IN_OVERLAY` has dropped the non-materialized record, the
promise, the interest handle and the byte ranges. -/
def Inv (s : State) : Prop :=
  (s.tag = .blobNotLoading → s.blobLoadingPromise = false) ∧
  (s.tag = .materializedInOverlay →
    s.nonMaterializedState = none ∧ s.blobLoadingPromise = false ∧
    s.interestHandle = false ∧ s.readByteRanges = [])

theorem inv_init (h : Option Bytes) : Inv (State.mk0 h) := by
  cases h <;> simp [Inv, State.mk0]

theorem inv_step {s t : State} (hs : Inv s) (hst : Step s t) : Inv t := by
  obtain ⟨h1, h2⟩ := hs
  cases hst with
  | getCached pv ch h =>
    unfold getCachedBlobState
    cases pv <;> cases ch <;> simp_all [Inv]
  | startLoading h =>
    simp [Inv, startLoadingDataState, h]
  | loadComplete success h =>
    unfold loadCompleteState
    rcases htag : s.tag with _ | _ | _
    · exact absurd htag h
    · cases success <;> simp_all [Inv]
    · simp_all [Inv]
  | materializeNow h =>
    simp [Inv, setMaterialized, h1 h]
  | truncateAndRun h =>
    simp [Inv, truncateAndRunState, setMaterialized]
  | truncateInOverlay h =>
    exact ⟨h1, h2⟩
  | read off size blobSize h =>
    unfold readStateUpdate
    by_cases hcov : covers ((off, off + size) :: s.readByteRanges) 0 blobSize
    · simp_all [Inv]
    · simp_all [Inv]
  | statComplete size =>
    unfold statCompleteState
    by_cases hms : s.tag = .materializedInOverlay
    · simp [hms]
      exact ⟨h1, h2⟩
    · simp [hms]
      constructor
      · intro ht
        exact h1 ht
      · intro ht
        exact absurd ht hms

theorem inv_reachable {s : State} (h : Reachable s) : Inv s := by
  induction h with
  | init h0 => exact inv_init h0
  | step _ hst ih => exact inv_step ih hst

/-- C2: in every reachable inode state, if the tag is
`MATERIALIZED_IN_OVERLAY` then the non-materialized record, the loading
promise, the interest handle and the read byte ranges are all empty; every
state-lock protected operation (`Step` covers read, write, setattr, stat,
materialization and load completion) preserves this. -/
theorem c2_materialized_state_empty (s : State) (hr : Reachable s)
    (hm : s.tag = .materializedInOverlay) :
    s.nonMaterializedState = none ∧ s.blobLoadingPromise = false ∧
    s.interestHandle = false ∧ s.readByteRanges = [] :=
  (inv_reachable hr).2 hm

/-- C2 witness: the invariant evaluated on a freshly created materialized
file. -/
theorem c2_materialized_state_empty_witness :
    (State.mk0 none).nonMaterializedState = none ∧
    (State.mk0 none).blobLoadingPromise = false ∧
    (State.mk0 none).interestHandle = false ∧
    (State.mk0 none).readByteRanges = [] :=
  c2_materialized_state_empty (State.mk0 none) (Reachable.init none) rfl

/-- Outcome of `FileInode::stat` while holding the state lock. -/
inductive StatOutcome
  /-- Materialized: the size is read from the overlay; no fetch. -/
  | fromOverlay
  /-- Non-materialized with a cached size: returned directly; no fetch. -/
  | cached (size : Nat)
  /-- Non-materialized with unknown size: `getBlobSize` is fetched from the
  object store for this hash. -/
  | fetch (hash : Bytes)
  deriving DecidableEq, Repr

/-- The size decision of `FileInode::stat`: overlay size when materialized,
the memoized `nonMaterialized.size` when known, otherwise an object-store
fetch. `none` models the `XCHECK` on a missing non-materialized record. -/
def statQuery (s : State) : Option StatOutcome :=
  if s.tag = .materializedInOverlay then some .fromOverlay
  else
    s.nonMaterializedState.map fun nm =>
      match nm.size with
      | some sz => .cached sz
      | none => .fetch nm.hash

/-- C8: a stat on a non-materialized file with unknown size issues exactly
one object-store size fetch and memoizes the result (the completion handler
only writes it while the inode is still non-materialized); afterwards stat
returns the memoized size with no further fetch, leaving the state alone. -/
theorem c8_stat_memoizes_size (s : State) (h : Bytes) (blobSize : Nat)
    (hm : s.tag ≠ .materializedInOverlay)
    (hnm : s.nonMaterializedState = some ⟨h, none⟩) :
    statQuery s = some (.fetch h) ∧
    (statCompleteState s blobSize).nonMaterializedState =
      some ⟨h, some blobSize⟩ ∧
    (statCompleteState s blobSize).tag = s.tag ∧
    statQuery (statCompleteState s blobSize) = some (.cached blobSize) := by
  have hq : statQuery s = some (.fetch h) := by
    unfold statQuery
    rw [if_neg hm, hnm]
    rfl
  have hcs : statCompleteState s blobSize =
      { s with nonMaterializedState := some ⟨h, some blobSize⟩ } := by
    unfold statCompleteState
    rw [if_neg hm, hnm]
    rfl
  refine ⟨hq, by rw [hcs], by rw [hcs], ?_⟩
  rw [hcs]
  unfold statQuery
  rw [if_neg hm]
  rfl

/-- C8 witness: the memoization evaluated on a concrete non-materialized
state. -/
theorem c8_stat_memoizes_size_witness :
    statQuery (State.mk0 (some [7])) = some (.fetch [7]) ∧
    (statCompleteState (State.mk0 (some [7])) 5).nonMaterializedState =
      some ⟨[7], some 5⟩ ∧
    (statCompleteState (State.mk0 (some [7])) 5).tag =
      (State.mk0 (some [7])).tag ∧
    statQuery (statCompleteState (State.mk0 (some [7])) 5) =
      some (.cached 5) :=
  c8_stat_memoizes_size (State.mk0 (some [7])) [7] 5 (by decide) rfl

/-- The `BLOB_NOT_LOADING` branch of `FileInode::read`: record the byte
range, then serve from the blob through a cursor; seeking at or past the end
yields an empty buffer, EOF is the cursor sitting at the end after cloning
at most `size` bytes. -/
def readBlobNotLoading (s : State) (blob : Bytes) (size off : Nat) :
    (Bytes × Bool) × State :=
  let s1 := readStateUpdate s off size blob.length
  if off > blob.length then (([], true), s1)
  else
    (((blob.drop off).take size,
      decide (off + min size (blob.length - off) = blob.length)), s1)

/-- C9: a read on a non-materialized file whose offset is at or beyond the
blob size returns an empty buffer and reports EOF. -/
theorem c9_read_past_eof (s : State) (blob : Bytes) (size off : Nat)
    (_htag : s.tag = .blobNotLoading) (hoff : off ≥ blob.length) :
    (readBlobNotLoading s blob size off).1 = ([], true) := by
  unfold readBlobNotLoading
  rcases Nat.lt_or_ge blob.length off with hlt | hge
  · rw [if_pos hlt]
  · have heq : off = blob.length := Nat.le_antisymm hge hoff
    rw [if_neg (by omega), heq]
    have hdrop : blob.drop blob.length = [] :=
      List.drop_eq_nil_of_le (le_refl _)
    simp [hdrop]

/-- C9 witness: reading at the end of a five-byte blob. -/
theorem c9_read_past_eof_witness :
    (readBlobNotLoading (State.mk0 (some [7])) [104, 101, 108, 108, 111]
        4096 5).1 = ([], true) :=
  c9_read_past_eof (State.mk0 (some [7])) [104, 101, 108, 108, 111] 4096 5
    (by decide) (by decide)

end FileInode

namespace Takeover

/-- Modelled from the spec: the protocol version constants are declared in
`TakeoverData.h`, which is not part of the sources; the spec's version table
and error section fix them to 0 (NeverSupported), 1, 3 and 4, matching their
wire values read back in `getProtocolVersion`. -/
def kTakeoverProtocolVersionNeverSupported : Int := 0

/-- Version 1, the custom-serialization dialect. -/
def kTakeoverProtocolVersionOne : Int := 1

/-- Version 3, the first Thrift-serialization dialect (2 was skipped). -/
def kTakeoverProtocolVersionThree : Int := 3

/-- Version 4, Thrift serialization plus ping. -/
def kTakeoverProtocolVersionFour : Int := 4

/-- `kSupportedTakeoverVersions` from `TakeoverData.cpp` (a `std::set`,
modelled as the list of its members). -/
def kSupportedTakeoverVersions : List Int :=
  [kTakeoverProtocolVersionOne, kTakeoverProtocolVersionThree,
   kTakeoverProtocolVersionFour]

/-- Modelled from the spec: the custom-dialect message-type words
(`ERROR = 1`, `MOUNTS = 2`, `PING = 3`), declared in the header. -/
def MessageType.ERROR : Nat := 1

/-- `MOUNTS = 2`. -/
def MessageType.MOUNTS : Nat := 2

/-- `PING = 3`. -/
def MessageType.PING : Nat := 3

/-- The loop body of `TakeoverData::computeCompatibleVersion`: skip versions
below the current best and versions outside the supported set, otherwise
adopt the version as the new best. -/
def ccvStep (supported : List Int) (best : Option Int) (version : Int) :
    Option Int :=
  match best with
  | some b =>
    if b > version then best
    else if version ∈ supported then some version else best
  | none => if version ∈ supported then some version else none

/-- `TakeoverData::computeCompatibleVersion`. -/
def computeCompatibleVersion (versions supported : List Int) : Option Int :=
  versions.foldl (ccvStep supported) none

/-- A takeover capability set, one flag per bit of the C++ bitmask. -/
structure Capabilities where
  customSerialization : Bool
  fuse : Bool
  thriftSerialization : Bool
  ping : Bool
  deriving DecidableEq, Repr

/-- The failures raised by the takeover codec. -/
inductive TErr
  /-- `versionToCapabilites`: unsupported version. -/
  | unsupportedVersion
  /-- `capabilitesToVersion` or a serialize/deserialize dispatch on an
  unsupported capability combination. -/
  | unsupportedCapabilities
  /-- `getProtocolVersion`: unrecognized first word. -/
  | unrecognizedHeader
  /-- An ERROR message or an `errorReason` record from the peer. -/
  | peerError (msg : Bytes)
  /-- `deserialize(UnixSocket::Message&)`: declared mounts plus two does not
  match the number of received file descriptors. -/
  | fdCountMismatch
  /-- A cursor read ran past the end of the buffer. -/
  | truncated
  /-- `deserializeCustom`: unknown message type word. -/
  | badMessageType
  /-- The abstract compact decoder rejected the bytes. -/
  | badDecode
  deriving DecidableEq, Repr

/-- `TakeoverData::versionToCapabilites`. -/
def versionToCapabilites (version : Int) : Except TErr Capabilities :=
  if version = kTakeoverProtocolVersionNeverSupported then
    .ok ⟨false, false, false, false⟩
  else if version = kTakeoverProtocolVersionOne then
    .ok ⟨true, true, false, false⟩
  else if version = kTakeoverProtocolVersionThree then
    .ok ⟨false, true, true, false⟩
  else if version = kTakeoverProtocolVersionFour then
    .ok ⟨false, true, true, true⟩
  else .error .unsupportedVersion

/-- `TakeoverData::capabilitesToVersion`: exact bitmask matches only. -/
def capabilitesToVersion (c : Capabilities) : Except TErr Int :=
  if c = ⟨false, false, false, false⟩ then
    .ok kTakeoverProtocolVersionNeverSupported
  else if c = ⟨true, true, false, false⟩ then .ok kTakeoverProtocolVersionOne
  else if c = ⟨false, true, true, false⟩ then
    .ok kTakeoverProtocolVersionThree
  else if c = ⟨false, true, true, true⟩ then .ok kTakeoverProtocolVersionFour
  else .error .unsupportedCapabilities

/-- A live mount descriptor (`TakeoverData::MountInfo`). Paths are byte
strings; `fuseFD` is the kernel channel descriptor (`none` models an empty
`folly::File`); `connInfo` is the opaque fixed-size `fuse_init_out` blob;
`inodeMap` is the opaque, already-serialized inode-map snapshot the codec
passes through. -/
structure MountInfo where
  mountPath : Bytes
  stateDirectory : Bytes
  bindMounts : List Bytes
  fuseFD : Option Nat
  connInfo : Bytes
  inodeMap : Bytes
  deriving DecidableEq, Repr

/-- The Thrift record `SerializedMountInfo`: a mount minus its descriptor. -/
structure SerializedMountInfo where
  mountPath : Bytes
  stateDirectory : Bytes
  bindMountPaths : List Bytes
  connInfo : Bytes
  inodeMap : Bytes
  deriving DecidableEq, Repr

/-- The Thrift union `SerializedTakeoverData`: a mount list, an error
reason, or unset. -/
inductive SerializedTakeoverData
  | mounts (ms : List SerializedMountInfo)
  | errorReason (msg : Bytes)
  | empty
  deriving DecidableEq, Repr

/-- The transferable state (`TakeoverData`): the mounts, the daemon lock
file and the thrift administration socket. -/
structure TakeoverData where
  mountPoints : List MountInfo
  lockFile : Option Nat
  thriftSocket : Option Nat
  deriving DecidableEq, Repr

/-- A `UnixSocket::Message`: the body bytes and the ancillary descriptors. -/
structure Message where
  data : Bytes
  files : List (Option Nat)
  deriving DecidableEq, Repr

/-- The mount-to-Thrift-record conversion inside `serializeThrift`. -/
def toSerializedMount (m : MountInfo) : SerializedMountInfo :=
  ⟨m.mountPath, m.stateDirectory, m.bindMounts, m.connInfo, m.inodeMap⟩

/-- The record-to-mount conversion inside `deserializeThrift`; the
descriptor slot is an empty `folly::File`. -/
def fromSerializedMount (sm : SerializedMountInfo) : MountInfo :=
  ⟨sm.mountPath, sm.stateDirectory, sm.bindMountPaths, none, sm.connInfo,
   sm.inodeMap⟩

/-- A mount with its descriptor slot cleared. -/
def stripFd (m : MountInfo) : MountInfo := { m with fuseFD := none }

/-- `TakeoverData::serializeThrift`: a big-endian version word — version 4
is advertised as 3 for rollback safety — followed by the compact-serialized
mounts record. The compact serializer itself is Thrift-library code outside
the sources and is passed in as `enc`. -/
def serializeThrift (enc : SerializedTakeoverData → Bytes)
    (protocolCapabilities : Capabilities) (d : TakeoverData) :
    Except TErr Bytes := do
  let version ← capabilitesToVersion protocolCapabilities
  let versionToAdvertize :=
    if version = kTakeoverProtocolVersionFour then
      kTakeoverProtocolVersionThree
    else version
  .ok (beU32 versionToAdvertize.toNat ++
    enc (.mounts (d.mountPoints.map toSerializedMount)))

/-- `TakeoverData::deserializeThrift`: decode the compact record (`dec` is
the Thrift-library decoder); an `errorReason` record raises, an unset union
is an empty takeover. -/
def deserializeThrift (dec : Bytes → Except TErr SerializedTakeoverData)
    (buf : Bytes) : Except TErr TakeoverData := do
  match ← dec buf with
  | .errorReason msg => .error (.peerError msg)
  | .mounts ms => .ok ⟨ms.map fromSerializedMount, none, none⟩
  | .empty => .ok ⟨[], none, none⟩

/-- A length-prefixed byte string, as the custom-dialect appender writes
strings. -/
def writeVarBytes (b : Bytes) : Bytes := beU32 b.length ++ b

/-- Modelled from the spec: `sizeof(fuse_init_out)`, the fixed size of the
opaque kernel connection blob in the custom dialect. The exact value is
irrelevant to every claim; 64 is used throughout. -/
def kConnInfoSize : Nat := 64

/-- One mount in the custom (version 1) dialect: mount path, state
directory, bind mounts, the raw connection blob, the always-zero obsolete
file-handle-map size, the inode map. -/
def serializeCustomMount (m : MountInfo) : Bytes :=
  writeVarBytes m.mountPath ++ writeVarBytes m.stateDirectory ++
    beU32 m.bindMounts.length ++ (m.bindMounts.map writeVarBytes).flatten ++
    m.connInfo ++ beU32 0 ++ writeVarBytes m.inodeMap

/-- `TakeoverData::serializeCustom`: the MOUNTS word, the mount count, then
each mount. -/
def serializeCustom (d : TakeoverData) : Bytes :=
  beU32 MessageType.MOUNTS ++ beU32 d.mountPoints.length ++
    (d.mountPoints.map serializeCustomMount).flatten

/-- `folly::io::Cursor::readBE<uint32_t>`: consume four bytes. -/
def readU32 : Bytes → Except TErr (Nat × Bytes)
  | a :: b :: c :: d :: rest => .ok (readBeU32 a b c d, rest)
  | _ => .error .truncated

/-- `Cursor::readFixedString(n)` / `Cursor::pull(n)`. -/
def readFixed (n : Nat) (buf : Bytes) : Except TErr (Bytes × Bytes) :=
  if n ≤ buf.length then .ok (buf.take n, buf.drop n)
  else .error .truncated

/-- A length word followed by that many bytes. -/
def readVarBytes (buf : Bytes) : Except TErr (Bytes × Bytes) := do
  let (n, rest) ← readU32 buf
  readFixed n rest

/-- The bind-mount loop of `deserializeCustom`. -/
def readBindMounts : Nat → Bytes → Except TErr (List Bytes × Bytes)
  | 0, buf => .ok ([], buf)
  | n + 1, buf => do
    let (p, rest) ← readVarBytes buf
    let (ps, rest') ← readBindMounts n rest
    .ok (p :: ps, rest')

/-- One mount in `deserializeCustom`; the obsolete file-handle map is read
and discarded, the descriptor slot starts empty. -/
def readMount (buf : Bytes) : Except TErr (MountInfo × Bytes) := do
  let (mountPath, b1) ← readVarBytes buf
  let (stateDirectory, b2) ← readVarBytes b1
  let (numBindMounts, b3) ← readU32 b2
  let (bindMounts, b4) ← readBindMounts numBindMounts b3
  let (connInfo, b5) ← readFixed kConnInfoSize b4
  let (_fileHandleMap, b6) ← readVarBytes b5
  let (inodeMap, b7) ← readVarBytes b6
  .ok (⟨mountPath, stateDirectory, bindMounts, none, connInfo, inodeMap⟩, b7)

/-- The mount loop of `deserializeCustom`. -/
def readMounts : Nat → Bytes → Except TErr (List MountInfo × Bytes)
  | 0, buf => .ok ([], buf)
  | n + 1, buf => do
    let (m, rest) ← readMount buf
    let (ms, rest') ← readMounts n rest
    .ok (m :: ms, rest')

/-- `TakeoverData::deserializeCustom`: an ERROR message raises with its
class and text; a MOUNTS message is the count followed by the mounts. -/
def deserializeCustom (buf : Bytes) : Except TErr TakeoverData := do
  let (messageType, b1) ← readU32 buf
  if messageType = MessageType.ERROR then
    let (errorType, b2) ← readVarBytes b1
    let (errorMessage, _) ← readVarBytes b2
    .error (.peerError (errorType ++ errorMessage))
  else if messageType = MessageType.MOUNTS then
    let (numMounts, b2) ← readU32 b1
    let (ms, _) ← readMounts numMounts b2
    .ok ⟨ms, none, none⟩
  else .error .badMessageType

/-- `IOBuf TakeoverData::serialize(uint64_t)`: dispatch on the
serialization capability bits, exactly one of which must be set. -/
def serializeBody (enc : SerializedTakeoverData → Bytes)
    (caps : Capabilities) (d : TakeoverData) : Except TErr Bytes :=
  if caps.customSerialization && !caps.thriftSerialization then
    .ok (serializeCustom d)
  else if caps.thriftSerialization && !caps.customSerialization then
    serializeThrift enc caps d
  else .error .unsupportedCapabilities

/-- `TakeoverData::serialize(uint64_t, UnixSocket::Message&)`: the body,
then the ancillary descriptors in the order lock file, thrift socket, one
kernel channel descriptor per mount. -/
def serializeMsg (enc : SerializedTakeoverData → Bytes)
    (caps : Capabilities) (d : TakeoverData) : Except TErr Message := do
  let body ← serializeBody enc caps d
  .ok ⟨body, d.lockFile :: d.thriftSocket ::
    d.mountPoints.map (fun m => m.fuseFD)⟩

/-- `TakeoverData::getProtocolVersion`: an ERROR or MOUNTS word means
version 1 and the word is left in place; a 3 or 4 word is the version and is
trimmed; anything else is unrecognized. -/
def getProtocolVersion (buf : Bytes) : Except TErr (Int × Bytes) :=
  match buf with
  | a :: b :: c :: d :: rest =>
    let messageType : Nat := readBeU32 a b c d
    if messageType = MessageType.ERROR ∨ messageType = MessageType.MOUNTS
    then
      .ok (kTakeoverProtocolVersionOne, a :: b :: c :: d :: rest)
    else if (messageType : Int) = kTakeoverProtocolVersionThree ∨
        (messageType : Int) = kTakeoverProtocolVersionFour then
      .ok ((messageType : Int), rest)
    else .error .unrecognizedHeader
  | _ => .error .truncated

/-- `TakeoverData::deserialize(uint64_t, IOBuf*)`: dispatch on the
serialization capability bits. -/
def deserializeBody (dec : Bytes → Except TErr SerializedTakeoverData)
    (caps : Capabilities) (buf : Bytes) : Except TErr TakeoverData :=
  if caps.customSerialization && !caps.thriftSerialization then
    deserializeCustom buf
  else if caps.thriftSerialization && !caps.customSerialization then
    deserializeThrift dec buf
  else .error .unsupportedCapabilities

/-- The body-decoding half of `TakeoverData::deserialize(Message&)`:
probe the version, map it to capabilities, decode the body. -/
def deserializeData (dec : Bytes → Except TErr SerializedTakeoverData)
    (buf : Bytes) : Except TErr TakeoverData := do
  let (protocolVersion, rest) ← getProtocolVersion buf
  let capabilities ← versionToCapabilites protocolVersion
  deserializeBody dec capabilities rest

/-- The positional descriptor reattachment loop of
`TakeoverData::deserialize(Message&)`. -/
def reattach (ms : List MountInfo) (fds : List (Option Nat)) :
    List MountInfo :=
  List.zipWith (fun m fd => { m with fuseFD := fd }) ms fds

/-- `TakeoverData::deserialize(UnixSocket::Message&)`: decode the body,
require exactly mounts-plus-two descriptors, then reattach them
positionally (lock file, thrift socket, kernel channels in mount order). -/
def deserializeMsg (dec : Bytes → Except TErr SerializedTakeoverData)
    (msg : Message) : Except TErr TakeoverData := do
  let data ← deserializeData dec msg.data
  if data.mountPoints.length + 2 = msg.files.length then
    .ok { mountPoints := reattach data.mountPoints (msg.files.drop 2)
          lockFile := msg.files.getD 0 none
          thriftSocket := msg.files.getD 1 none }
  else .error .fdCountMismatch

theorem ccvStep_some_not_mem (supported : List Int) (b version : Int)
    (hmem : version ∉ supported) :
    ccvStep supported (some b) version = some b := by
  show (if b > version then some b
    else if version ∈ supported then some version else some b) = some b
  rw [if_neg hmem]
  split <;> rfl

theorem ccv_foldl_some (supported : List Int) :
    ∀ (vs : List Int) (b : Int),
      vs.foldl (ccvStep supported) (some b) =
        some ((vs.filter fun v => decide (v ∈ supported)).foldl max b) := by
  intro vs
  induction vs with
  | nil => intro b; rfl
  | cons a t ih =>
    intro b
    rw [List.foldl_cons]
    by_cases hmem : a ∈ supported
    · have hfil : (a :: t).filter (fun v => decide (v ∈ supported)) =
          a :: t.filter fun v => decide (v ∈ supported) := by
        simp [List.filter_cons, hmem]
      rw [hfil, List.foldl_cons]
      by_cases hgt : b > a
      · have hstep : ccvStep supported (some b) a = some b := by
          show (if b > a then some b
            else if a ∈ supported then some a else some b) = some b
          rw [if_pos hgt]
        rw [hstep, ih b, max_eq_left (le_of_lt hgt)]
      · have hstep : ccvStep supported (some b) a = some a := by
          show (if b > a then some b
            else if a ∈ supported then some a else some b) = some a
          rw [if_neg hgt, if_pos hmem]
        rw [hstep, ih a, max_eq_right (le_of_not_lt hgt)]
    · have hfil : (a :: t).filter (fun v => decide (v ∈ supported)) =
          t.filter fun v => decide (v ∈ supported) := by
        simp [List.filter_cons, hmem]
      rw [hfil, ccvStep_some_not_mem supported b a hmem, ih b]

theorem ccv_foldl_none (supported : List Int) :
    ∀ vs : List Int,
      vs.foldl (ccvStep supported) none =
        match vs.filter fun v => decide (v ∈ supported) with
        | [] => none
        | a :: t => some (t.foldl max a) := by
  intro vs
  induction vs with
  | nil => rfl
  | cons a t ih =>
    rw [List.foldl_cons]
    by_cases hmem : a ∈ supported
    · have hstep : ccvStep supported none a = some a := by
        show (if a ∈ supported then some a else none) = some a
        rw [if_pos hmem]
      have hfil : (a :: t).filter (fun v => decide (v ∈ supported)) =
          a :: t.filter fun v => decide (v ∈ supported) := by
        simp [List.filter_cons, hmem]
      rw [hstep, ccv_foldl_some supported t a, hfil]
    · have hstep : ccvStep supported none a = none := by
        show (if a ∈ supported then some a else none) = none
        rw [if_neg hmem]
      have hfil : (a :: t).filter (fun v => decide (v ∈ supported)) =
          t.filter fun v => decide (v ∈ supported) := by
        simp [List.filter_cons, hmem]
      rw [hstep, ih, hfil]

theorem foldl_max_mem : ∀ (t : List Int) (a : Int), t.foldl max a ∈ a :: t := by
  intro t
  induction t with
  | nil => intro a; simp
  | cons b t ih =>
    intro a
    rw [List.foldl_cons]
    have h := ih (max a b)
    rcases List.mem_cons.mp h with h1 | h2
    · rcases max_choice a b with hab | hab
      · exact List.mem_cons.mpr (Or.inl (h1.trans hab))
      · exact List.mem_cons.mpr
          (Or.inr (List.mem_cons.mpr (Or.inl (h1.trans hab))))
    · exact List.mem_cons.mpr (Or.inr (List.mem_cons.mpr (Or.inr h2)))

theorem self_le_foldl_max : ∀ (t : List Int) (a : Int), a ≤ t.foldl max a := by
  intro t
  induction t with
  | nil => intro a; simp
  | cons b t ih =>
    intro a
    rw [List.foldl_cons]
    exact le_trans (le_max_left a b) (ih (max a b))

theorem le_foldl_max :
    ∀ (t : List Int) (a x : Int), x ∈ a :: t → x ≤ t.foldl max a := by
  intro t
  induction t with
  | nil =>
    intro a x hx
    simp at hx
    simp [hx]
  | cons b t ih =>
    intro a x hx
    rw [List.foldl_cons]
    rcases List.mem_cons.mp hx with h1 | h2
    · rw [h1]
      exact le_trans (le_max_left a b) (self_le_foldl_max t (max a b))
    · rcases List.mem_cons.mp h2 with h3 | h4
      · rw [h3]
        exact le_trans (le_max_right a b) (self_le_foldl_max t (max a b))
      · exact ih (max a b) x (List.mem_cons_of_mem _ h4)

/-- C7: `computeCompatibleVersion` returns the maximum version present in
both the offered and the supported sets, returning `none` exactly when the
intersection is empty, and the supported set is `{1, 3, 4}`. -/
theorem c7_compute_compatible_version (versions supported : List Int) :
    (computeCompatibleVersion versions supported = none ↔
      ∀ v ∈ versions, v ∉ supported) ∧
    (∀ m, computeCompatibleVersion versions supported = some m →
      m ∈ versions ∧ m ∈ supported ∧
        ∀ w ∈ versions, w ∈ supported → w ≤ m) ∧
    kSupportedTakeoverVersions = [1, 3, 4] := by
  have hmem_filter : ∀ x : Int,
      x ∈ (versions.filter fun v => decide (v ∈ supported)) ↔
        x ∈ versions ∧ x ∈ supported := by
    intro x
    rw [List.mem_filter]
    simp
  rcases hfil : versions.filter fun v => decide (v ∈ supported) with
    _ | ⟨a, t⟩
  · have hnone : computeCompatibleVersion versions supported = none := by
      unfold computeCompatibleVersion
      rw [ccv_foldl_none supported versions, hfil]
    refine ⟨?_, ?_, rfl⟩
    · rw [hnone]
      simp only [true_iff]
      intro v hv hmem
      have hvf : v ∈ (versions.filter fun v => decide (v ∈ supported)) :=
        (hmem_filter v).mpr ⟨hv, hmem⟩
      rw [hfil] at hvf
      exact absurd hvf (List.not_mem_nil v)
    · intro m hm
      rw [hnone] at hm
      exact absurd hm (by simp)
  · have hsome : computeCompatibleVersion versions supported =
        some (t.foldl max a) := by
      unfold computeCompatibleVersion
      rw [ccv_foldl_none supported versions, hfil]
    refine ⟨?_, ?_, rfl⟩
    · rw [hsome]
      constructor
      · intro hcon
        exact absurd hcon (by simp)
      · intro hall
        exfalso
        have haf : a ∈ (versions.filter fun v => decide (v ∈ supported)) := by
          rw [hfil]
          exact List.mem_cons_self a t
        exact hall a ((hmem_filter a).mp haf).1 ((hmem_filter a).mp haf).2
    · intro m hm
      rw [hsome] at hm
      simp only [Option.some.injEq] at hm
      have hmmem : m ∈ a :: t := hm ▸ foldl_max_mem t a
      have hmf : m ∈ (versions.filter fun v => decide (v ∈ supported)) := by
        rw [hfil]
        exact hmmem
      refine ⟨((hmem_filter m).mp hmf).1, ((hmem_filter m).mp hmf).2, ?_⟩
      intro w hw hwmem
      have hwfil : w ∈ a :: t := by
        rw [← hfil]
        exact (hmem_filter w).mpr ⟨hw, hwmem⟩
      exact hm ▸ le_foldl_max t a w hwfil

/-- C7 witness: the compatible version of `{5, 1, 4, 3}` against the
supported set is a member of both sets and maximal. -/
theorem c7_compute_compatible_version_witness :
    (4 : Int) ∈ [(5 : Int), 1, 4, 3] ∧ (4 : Int) ∈ kSupportedTakeoverVersions ∧
    ∀ w ∈ [(5 : Int), 1, 4, 3], w ∈ kSupportedTakeoverVersions → w ≤ 4 :=
  (c7_compute_compatible_version [(5 : Int), 1, 4, 3]
    kSupportedTakeoverVersions).2.1 4 (by rfl)

theorem exceptBind_ok {α β : Type} (a : α) (f : α → Except TErr β) :
    (Except.ok a >>= f) = f a := rfl

theorem from_to_serialized_mount (m : MountInfo) :
    fromSerializedMount (toSerializedMount m) = stripFd m := rfl

/-- C5: for every capability set that maps to protocol version 4, the Thrift
serializer advertises version 3 (not 4) in the big-endian version word of
the body, a version-3 peer recognizes that header, and deserializing the
body yields the same mount list (path, state directory, bind mounts,
connection-info bytes, inode map; the descriptor slot is re-attached
separately). The compact codec is Thrift-library code outside the sources
and is passed in as `enc`/`dec` with its round-trip assumed at the value in
question. -/
theorem c5_version_four_advertised_as_three
    (enc : SerializedTakeoverData → Bytes)
    (dec : Bytes → Except TErr SerializedTakeoverData)
    (caps : Capabilities) (d : TakeoverData)
    (hv : capabilitesToVersion caps = .ok kTakeoverProtocolVersionFour)
    (hdec : dec (enc (.mounts (d.mountPoints.map toSerializedMount))) =
      .ok (.mounts (d.mountPoints.map toSerializedMount))) :
    ∃ body, serializeThrift enc caps d = .ok body ∧
      body.take 4 = beU32 kTakeoverProtocolVersionThree.toNat ∧
      beU32 kTakeoverProtocolVersionThree.toNat ≠
        beU32 kTakeoverProtocolVersionFour.toNat ∧
      getProtocolVersion body =
        .ok (kTakeoverProtocolVersionThree, body.drop 4) ∧
      deserializeData dec body =
        .ok ⟨d.mountPoints.map stripFd, none, none⟩ := by
  have hmaps : (d.mountPoints.map toSerializedMount).map fromSerializedMount =
      d.mountPoints.map stripFd := by
    rw [List.map_map]
    rfl
  refine ⟨beU32 3 ++ enc (.mounts (d.mountPoints.map toSerializedMount)),
    ?_, ?_, by decide, ?_, ?_⟩
  · unfold serializeThrift
    rw [hv]
    rfl
  · exact List.take_left' rfl
  · rfl
  · show deserializeThrift dec
      (enc (.mounts (d.mountPoints.map toSerializedMount))) = _
    unfold deserializeThrift
    rw [hdec]
    exact congrArg (fun ms =>
      (Except.ok ⟨ms, none, none⟩ : Except TErr TakeoverData)) hmaps

/-- A concrete capability set mapping to version 4. -/
def c5Caps : Capabilities := ⟨false, true, true, true⟩

/-- A concrete single-mount takeover payload. -/
def c5Data : TakeoverData :=
  ⟨[⟨[109], [115], [[98]], some 9, [1, 2], [3]⟩], some 4, some 5⟩

/-- A stub compact codec that round-trips the `c5Data` mounts record. -/
def c5Dec : Bytes → Except TErr SerializedTakeoverData :=
  fun _ => .ok (.mounts (c5Data.mountPoints.map toSerializedMount))

/-- C5 witness: the version-4 wire rewrite evaluated on `c5Data`. -/
theorem c5_version_four_advertised_as_three_witness :
    ∃ body, serializeThrift (fun _ => [42]) c5Caps c5Data = .ok body ∧
      body.take 4 = beU32 kTakeoverProtocolVersionThree.toNat ∧
      beU32 kTakeoverProtocolVersionThree.toNat ≠
        beU32 kTakeoverProtocolVersionFour.toNat ∧
      getProtocolVersion body =
        .ok (kTakeoverProtocolVersionThree, body.drop 4) ∧
      deserializeData c5Dec body =
        .ok ⟨c5Data.mountPoints.map stripFd, none, none⟩ :=
  c5_version_four_advertised_as_three (fun _ => [42]) c5Dec c5Caps c5Data
    rfl rfl

theorem serializeMsg_files (enc : SerializedTakeoverData → Bytes)
    (caps : Capabilities) (d : TakeoverData) (msg : Message)
    (hser : serializeMsg enc caps d = .ok msg) :
    msg.files = d.lockFile :: d.thriftSocket ::
      d.mountPoints.map fun m => m.fuseFD := by
  unfold serializeMsg at hser
  cases hbody : serializeBody enc caps d with
  | error e =>
    rw [hbody] at hser
    exact Except.noConfusion hser
  | ok body =>
    rw [hbody, exceptBind_ok] at hser
    injection hser with h
    rw [← h]

theorem deserializeMsg_count_mismatch
    (dec : Bytes → Except TErr SerializedTakeoverData) (msg : Message)
    (d0 : TakeoverData) (hdata : deserializeData dec msg.data = .ok d0)
    (hne : msg.files.length ≠ d0.mountPoints.length + 2) :
    deserializeMsg dec msg = .error .fdCountMismatch := by
  unfold deserializeMsg
  rw [hdata, exceptBind_ok, if_neg (by omega)]

theorem deserializeMsg_count_ok
    (dec : Bytes → Except TErr SerializedTakeoverData) (msg : Message)
    (d0 : TakeoverData) (hdata : deserializeData dec msg.data = .ok d0)
    (heq : msg.files.length = d0.mountPoints.length + 2) :
    deserializeMsg dec msg = .ok
      { mountPoints := reattach d0.mountPoints (msg.files.drop 2)
        lockFile := msg.files.getD 0 none
        thriftSocket := msg.files.getD 1 none } := by
  unfold deserializeMsg
  rw [hdata, exceptBind_ok, if_pos (by omega)]

theorem map_fuseFD_reattach :
    ∀ (ms : List MountInfo) (fds : List (Option Nat)),
      ms.length = fds.length →
      (reattach ms fds).map (fun m => m.fuseFD) = fds := by
  intro ms
  induction ms with
  | nil =>
    intro fds h
    cases fds with
    | nil => rfl
    | cons fd fds => simp at h
  | cons m ms ih =>
    intro fds h
    cases fds with
    | nil => simp at h
    | cons fd fds =>
      have hcons : reattach (m :: ms) (fd :: fds) =
          { m with fuseFD := fd } :: reattach ms fds := rfl
      rw [hcons, List.map_cons]
      have hlen : ms.length = fds.length := by
        simp only [List.length_cons] at h
        omega
      rw [ih fds hlen]

theorem map_stripFd_reattach :
    ∀ (ms : List MountInfo) (fds : List (Option Nat)),
      ms.length = fds.length →
      (reattach ms fds).map stripFd = ms.map stripFd := by
  intro ms
  induction ms with
  | nil =>
    intro fds h
    cases fds with
    | nil => rfl
    | cons fd fds => simp at h
  | cons m ms ih =>
    intro fds h
    cases fds with
    | nil => simp at h
    | cons fd fds =>
      have hcons : reattach (m :: ms) (fd :: fds) =
          { m with fuseFD := fd } :: reattach ms fds := rfl
      rw [hcons, List.map_cons, List.map_cons]
      have hlen : ms.length = fds.length := by
        simp only [List.length_cons] at h
        omega
      rw [ih fds hlen]
      rfl

/-- C6: serialization attaches the ancillary descriptors in exactly the
order lock file, thrift socket, then one kernel channel descriptor per mount
in mount order; deserialization fails whenever the received descriptor count
differs from the declared mount count plus two, and otherwise reattaches
them positionally, so a serialize/deserialize round trip hands every mount
its own descriptor back in order. -/
theorem c6_fd_order_and_positional_reattach :
    (∀ (enc : SerializedTakeoverData → Bytes) (caps : Capabilities)
        (d : TakeoverData) (msg : Message),
      serializeMsg enc caps d = .ok msg →
      msg.files = d.lockFile :: d.thriftSocket ::
        d.mountPoints.map fun m => m.fuseFD) ∧
    (∀ (dec : Bytes → Except TErr SerializedTakeoverData) (msg : Message)
        (d0 : TakeoverData),
      deserializeData dec msg.data = .ok d0 →
      (msg.files.length ≠ d0.mountPoints.length + 2 →
        deserializeMsg dec msg = .error .fdCountMismatch) ∧
      (msg.files.length = d0.mountPoints.length + 2 →
        deserializeMsg dec msg = .ok
          { mountPoints := reattach d0.mountPoints (msg.files.drop 2)
            lockFile := msg.files.getD 0 none
            thriftSocket := msg.files.getD 1 none })) ∧
    (∀ (enc : SerializedTakeoverData → Bytes)
        (dec : Bytes → Except TErr SerializedTakeoverData)
        (caps : Capabilities) (d : TakeoverData) (msg : Message)
        (d0 : TakeoverData),
      serializeMsg enc caps d = .ok msg →
      deserializeData dec msg.data = .ok d0 →
      d0.mountPoints.length = d.mountPoints.length →
      ∃ out, deserializeMsg dec msg = .ok out ∧
        out.lockFile = d.lockFile ∧
        out.thriftSocket = d.thriftSocket ∧
        out.mountPoints.map (fun m => m.fuseFD) =
          d.mountPoints.map (fun m => m.fuseFD) ∧
        out.mountPoints.map stripFd = d0.mountPoints.map stripFd) := by
  refine ⟨serializeMsg_files, ?_, ?_⟩
  · intro dec msg d0 hdata
    exact ⟨deserializeMsg_count_mismatch dec msg d0 hdata,
      deserializeMsg_count_ok dec msg d0 hdata⟩
  · intro enc dec caps d msg d0 hser hdata hlen
    have hfiles := serializeMsg_files enc caps d msg hser
    have hlen2 : msg.files.length = d0.mountPoints.length + 2 := by
      rw [hfiles]
      simp only [List.length_cons, List.length_map]
      omega
    have hdrop : msg.files.drop 2 = d.mountPoints.map fun m => m.fuseFD := by
      rw [hfiles]
      rfl
    have hlen3 : d0.mountPoints.length =
        (d.mountPoints.map fun m => m.fuseFD).length := by
      rw [List.length_map]
      exact hlen
    refine ⟨_, deserializeMsg_count_ok dec msg d0 hdata hlen2, ?_, ?_, ?_, ?_⟩
    · show msg.files.getD 0 none = d.lockFile
      rw [hfiles]
      rfl
    · show msg.files.getD 1 none = d.thriftSocket
      rw [hfiles]
      rfl
    · show (reattach d0.mountPoints (msg.files.drop 2)).map
        (fun m => m.fuseFD) = _
      rw [hdrop]
      exact map_fuseFD_reattach d0.mountPoints _ hlen3
    · show (reattach d0.mountPoints (msg.files.drop 2)).map stripFd = _
      rw [hdrop]
      exact map_stripFd_reattach d0.mountPoints _ hlen3

/-- C6 witness: a version-3 body with no mounts and exactly two descriptors
reattaches them as the lock file and the thrift socket. -/
theorem c6_fd_order_and_positional_reattach_witness :
    deserializeMsg (fun _ => .ok (.mounts []))
      ⟨beU32 3, [some 1, some 2]⟩ = .ok ⟨[], some 1, some 2⟩ := by
  have h := ((c6_fd_order_and_positional_reattach.2.1
    (fun _ => .ok (.mounts [])) ⟨beU32 3, [some 1, some 2]⟩
    ⟨[], none, none⟩ rfl).2 rfl)
  rw [h]
  rfl

end Takeover

end Eden
